import Mathlib

/-!
Verification of the Qwen OAuth QR-code login subsystem of picoclaw
(`pkg/auth/qwen_oauth.go`), shallowly embedded in Lean 4.

Go strings are modelled as `List Char` (the claims only exercise the ASCII
range, where Go's byte strings and Lean's character lists agree), byte
slices as `List Nat` with every element below 256, and network effects are
modelled by passing the server's response explicitly as an argument.
-/

set_option autoImplicit false

namespace PicoClaw

/-- A parsed JSON document, the shape `encoding/json` produces.  Strings and
field names are character lists; numbers are restricted to integers (the
claims never exercise fractional values). -/
inductive Json where
  | null
  | bool (b : Bool)
  | num (n : Int)
  | str (s : List Char)
  | arr (elems : List Json)
  | obj (fields : List (List Char × Json))

instance : Inhabited Json := ⟨Json.null⟩

/-- `true` exactly on the `Json.str` constructor. -/
def Json.isStr : Json → Bool
  | .str _ => true
  | _ => false

/-- Association-list lookup where the last binding wins, matching the
semantics of decoding duplicate JSON keys into a Go map. -/
def lookupLast (fields : List (List Char × Json)) (name : List Char) : Option Json :=
  fields.foldl (fun acc f => if f.1 = name then some f.2 else acc) none

/-- Go's `strings.Split` restricted to a single-character separator:
splits at every occurrence, keeping empty segments. -/
def goSplit (sep : Char) : List Char → List (List Char)
  | [] => [[]]
  | c :: rest =>
    if c = sep then
      [] :: goSplit sep rest
    else
      match goSplit sep rest with
      | [] => [[c]]
      | g :: gs => (c :: g) :: gs

/-! ## Base64 -/

/-- The standard base64 alphabet (`encoding/base64.StdEncoding`). -/
def b64CharStd (v : Nat) : Char :=
  if v < 26 then Char.ofNat (65 + v)
  else if v < 52 then Char.ofNat (97 + (v - 26))
  else if v < 62 then Char.ofNat (48 + (v - 52))
  else if v = 62 then '+'
  else '/'

/-- The URL-safe base64 alphabet (`encoding/base64.URLEncoding`). -/
def b64CharUrl (v : Nat) : Char :=
  if v < 26 then Char.ofNat (65 + v)
  else if v < 52 then Char.ofNat (97 + (v - 26))
  else if v < 62 then Char.ofNat (48 + (v - 52))
  else if v = 62 then '-'
  else '_'

/-- Base64 encoding without padding, over a choice of alphabet. -/
def b64EncNoPad (tbl : Nat → Char) : List Nat → List Char
  | [] => []
  | [b1] => [tbl (b1 / 4), tbl (b1 % 4 * 16)]
  | [b1, b2] => [tbl (b1 / 4), tbl (b1 % 4 * 16 + b2 / 16), tbl (b2 % 16 * 4)]
  | b1 :: b2 :: b3 :: rest =>
    tbl (b1 / 4) :: tbl (b1 % 4 * 16 + b2 / 16) :: tbl (b2 % 16 * 4 + b3 / 64) ::
      tbl (b3 % 64) :: b64EncNoPad tbl rest

/-- Value of a character in the standard base64 alphabet. -/
def b64ValStd (c : Char) : Option Nat :=
  let n := c.toNat
  if 65 ≤ n ∧ n ≤ 90 then some (n - 65)
  else if 97 ≤ n ∧ n ≤ 122 then some (n - 97 + 26)
  else if 48 ≤ n ∧ n ≤ 57 then some (n - 48 + 52)
  else if n = 43 then some 62
  else if n = 47 then some 63
  else none

/-- Go's `base64.StdEncoding.DecodeString`: the input length must be a
multiple of four, `=` padding may appear only in the final group, and an
invalid character fails the whole decode. -/
def b64DecStd : List Char → Option (List Nat)
  | [] => some []
  | a :: b :: c :: d :: rest =>
    match b64ValStd a, b64ValStd b with
    | some va, some vb =>
      if c = '=' ∧ d = '=' ∧ rest = [] then
        some [va * 4 + vb / 16]
      else if d = '=' ∧ rest = [] then
        match b64ValStd c with
        | some vc => some [va * 4 + vb / 16, vb % 16 * 16 + vc / 4]
        | none => none
      else
        match b64ValStd c, b64ValStd d with
        | some vc, some vd =>
          match b64DecStd rest with
          | some tail => some ((va * 4 + vb / 16) :: (vb % 16 * 16 + vc / 4) :: (vc % 4 * 64 + vd) :: tail)
          | none => none
        | _, _ => none
    | _, _ => none
  | _ => none

/-- `base64URLEncode` from the source: URL-safe base64 without padding. -/
def base64URLEncode (input : List Nat) : List Char :=
  b64EncNoPad b64CharUrl input

/-- Hex digit, lower case, as produced by Go's `hex.EncodeToString`. -/
def hexDigit (n : Nat) : Char :=
  if n < 10 then Char.ofNat (48 + n) else Char.ofNat (87 + n)

/-- Go's `hex.EncodeToString`. -/
def hexEncode (bs : List Nat) : List Char :=
  bs.foldr (fun b acc => hexDigit (b / 16) :: hexDigit (b % 16) :: acc) []

/-! ## A JSON syntax checker/reader, modelling `encoding/json` parsing

The parser reads a byte list (ASCII values).  It is a model of the Go
library parser restricted to what the repository's inputs exercise:
integer numbers (a fractional or exponent part is rejected) and string
escapes other than `\uXXXX`. -/

/-- Decoded character for a one-letter JSON string escape. -/
def escChar (e : Nat) : Option Char :=
  if e = 34 then some (Char.ofNat 34)
  else if e = 92 then some (Char.ofNat 92)
  else if e = 47 then some (Char.ofNat 47)
  else if e = 110 then some (Char.ofNat 10)
  else if e = 116 then some (Char.ofNat 9)
  else if e = 114 then some (Char.ofNat 13)
  else if e = 98 then some (Char.ofNat 8)
  else if e = 102 then some (Char.ofNat 12)
  else none

/-- Drop leading JSON whitespace bytes. -/
def skipWs : List Nat → List Nat
  | [] => []
  | b :: bs => if b = 32 ∨ b = 9 ∨ b = 10 ∨ b = 13 then skipWs bs else b :: bs

/-- Scanner for a JSON string body (the opening quote already consumed):
the boolean records that a backslash was just read.  Returns the decoded
characters and the rest of the input. -/
def pStrA : Bool → List Nat → Option (List Char × List Nat)
  | _, [] => none
  | true, e :: bs =>
    match escChar e with
    | none => none
    | some c =>
      match pStrA false bs with
      | some (str, rest) => some (c :: str, rest)
      | none => none
  | false, b :: bs =>
    if b = 34 then some ([], bs)
    else if b = 92 then pStrA true bs
    else if b < 32 then none
    else
      match pStrA false bs with
      | some (str, rest) => some (Char.ofNat b :: str, rest)
      | none => none

/-- Read a JSON string body (the opening quote already consumed). -/
def pStr (input : List Nat) : Option (List Char × List Nat) :=
  pStrA false input

/-- Split off a maximal run of decimal digit bytes. -/
def takeDigits : List Nat → (List Nat × List Nat)
  | [] => ([], [])
  | b :: bs =>
    if 48 ≤ b ∧ b ≤ 57 then
      let r := takeDigits bs
      (b :: r.1, r.2)
    else ([], b :: bs)

/-- Numeric value of a digit run. -/
def digitsVal (ds : List Nat) : Nat :=
  ds.foldl (fun acc d => acc * 10 + (d - 48)) 0

/-- True when the byte starting the rest of the input would extend a number
into a float (fraction dot or exponent), which this model rejects. -/
def floatFollows : List Nat → Bool
  | [] => false
  | b :: _ => b = 46 ∨ b = 101 ∨ b = 69

/-- What a parsing step may return: a value, the fields of an object, or
the elements of an array. -/
inductive PRes where
  | val (j : Json)
  | fields (fs : List (List Char × Json))
  | elems (es : List Json)

/-- Which production a parsing step reads. -/
inductive PMode where
  | val
  | fieldsRest
  | elemsRest

/-- One fuel-indexed parsing step.  `PMode.val` reads one JSON value;
`PMode.fieldsRest` reads the members of an object up to and including the
closing brace; `PMode.elemsRest` likewise for an array. -/
def pStep : Nat → PMode → List Nat → Option (PRes × List Nat)
  | 0, _, _ => none
  | fuel + 1, .val, input =>
    match skipWs input with
    | [] => none
    | b :: bs =>
      if b = 110 then
        match bs with
        | 117 :: 108 :: 108 :: rest => some (.val .null, rest)
        | _ => none
      else if b = 116 then
        match bs with
        | 114 :: 117 :: 101 :: rest => some (.val (.bool true), rest)
        | _ => none
      else if b = 102 then
        match bs with
        | 97 :: 108 :: 115 :: 101 :: rest => some (.val (.bool false), rest)
        | _ => none
      else if b = 34 then
        match pStr bs with
        | some (s, rest) => some (.val (.str s), rest)
        | none => none
      else if b = 123 then
        match skipWs bs with
        | 125 :: rest => some (.val (.obj []), rest)
        | bs2 =>
          match pStep fuel .fieldsRest bs2 with
          | some (.fields fs, rest) => some (.val (.obj fs), rest)
          | _ => none
      else if b = 91 then
        match skipWs bs with
        | 93 :: rest => some (.val (.arr []), rest)
        | bs2 =>
          match pStep fuel .elemsRest bs2 with
          | some (.elems es, rest) => some (.val (.arr es), rest)
          | _ => none
      else if b = 45 then
        match takeDigits bs with
        | ([], _) => none
        | (ds, rest) =>
          if floatFollows rest then none
          else some (.val (.num (-(digitsVal ds : Int))), rest)
      else if 48 ≤ b ∧ b ≤ 57 then
        match takeDigits (b :: bs) with
        | (ds, rest) =>
          if floatFollows rest then none
          else some (.val (.num (digitsVal ds : Int)), rest)
      else none
  | fuel + 1, .fieldsRest, input =>
    match skipWs input with
    | 34 :: bs =>
      match pStr bs with
      | none => none
      | some (name, rest1) =>
        match skipWs rest1 with
        | 58 :: rest2 =>
          match pStep fuel .val rest2 with
          | some (.val v, rest3) =>
            match skipWs rest3 with
            | 44 :: rest4 =>
              match pStep fuel .fieldsRest rest4 with
              | some (.fields fs, rest5) => some (.fields ((name, v) :: fs), rest5)
              | _ => none
            | 125 :: rest4 => some (.fields [(name, v)], rest4)
            | _ => none
          | _ => none
        | _ => none
    | _ => none
  | fuel + 1, .elemsRest, input =>
    match pStep fuel .val input with
    | some (.val v, rest) =>
      match skipWs rest with
      | 44 :: rest2 =>
        match pStep fuel .elemsRest rest2 with
        | some (.elems es, rest3) => some (.elems (v :: es), rest3)
        | _ => none
      | 93 :: rest2 => some (.elems [v], rest2)
      | _ => none
    | _ => none

/-- Parse a whole byte list as a single JSON document, as `json.Unmarshal`
requires (only whitespace may follow the value). -/
def parseJsonBytes (bs : List Nat) : Option Json :=
  match pStep (2 * bs.length + 2) .val bs with
  | some (.val v, rest) => if skipWs rest = [] then some v else none
  | _ => none

/-! ## Decoding the server responses into the source's structs

These model `json.Unmarshal` into the concrete target types of
`qwen_oauth.go`: a missing field keeps its zero value, JSON `null` is a
no-op, and a type mismatch is an error. -/

/-- String-typed struct field: absent or `null` keeps the zero value. -/
def jStrField (fs : List (List Char × Json)) (name : List Char) : Except String (List Char) :=
  match lookupLast fs name with
  | none => .ok []
  | some .null => .ok []
  | some (.str s) => .ok s
  | some _ => .error "json: cannot unmarshal value into field of type string"

/-- Int-typed struct field: absent or `null` keeps the zero value. -/
def jIntField (fs : List (List Char × Json)) (name : List Char) : Except String Int :=
  match lookupLast fs name with
  | none => .ok 0
  | some .null => .ok 0
  | some (.num n) => .ok n
  | some _ => .error "json: cannot unmarshal value into field of type int"

/-- Struct-typed field: absent or `null` keeps the zero value (`none`). -/
def jObjField (fs : List (List Char × Json)) (name : List Char) :
    Except String (Option (List (List Char × Json))) :=
  match lookupLast fs name with
  | none => .ok none
  | some .null => .ok none
  | some (.obj ds) => .ok (some ds)
  | some _ => .error "json: cannot unmarshal value into field of type struct"

/-- `QwenTokenResponse` from the source. -/
structure QwenTokenResponse where
  accessToken : List Char
  refreshToken : List Char
  expiresIn : Int
  tokenType : List Char
  deriving DecidableEq

/-- The `data` part of `QwenQRCodeResponse` from the source. -/
structure QwenQRCodeData where
  qrCodeUrl : List Char
  qrCodeId : List Char
  redirectUri : List Char
  refreshToken : List Char
  deriving DecidableEq

/-- `QwenQRCodeResponse` from the source. -/
structure QwenQRCodeResponse where
  code : List Char
  message : List Char
  data : QwenQRCodeData
  deriving DecidableEq

/-- The `data` part of the anonymous scan-status struct in
`checkQwenScanStatus`. -/
structure QwenScanStatusData where
  status : List Char
  code : List Char
  deriving DecidableEq

/-- The anonymous scan-status response struct in `checkQwenScanStatus`. -/
structure QwenScanStatusResponse where
  code : List Char
  message : List Char
  data : QwenScanStatusData
  deriving DecidableEq

/-- `json.Unmarshal` into `QwenTokenResponse`. -/
def unmarshalQwenTokenResponse : Json → Except String QwenTokenResponse
  | .null => .ok ⟨[], [], 0, []⟩
  | .obj fs => do
    let access ← jStrField fs "access_token".toList
    let refresh ← jStrField fs "refresh_token".toList
    let expires ← jIntField fs "expires_in".toList
    let tokenType ← jStrField fs "token_type".toList
    .ok ⟨access, refresh, expires, tokenType⟩
  | _ => .error "json: cannot unmarshal value into Go value of type QwenTokenResponse"

/-- `json.Unmarshal` into `QwenQRCodeResponse`. -/
def unmarshalQwenQRCodeResponse : Json → Except String QwenQRCodeResponse
  | .null => .ok ⟨[], [], ⟨[], [], [], []⟩⟩
  | .obj fs => do
    let code ← jStrField fs "code".toList
    let message ← jStrField fs "message".toList
    let dataF ← jObjField fs "data".toList
    match dataF with
    | none => .ok ⟨code, message, ⟨[], [], [], []⟩⟩
    | some ds => do
      let url ← jStrField ds "qrCodeUrl".toList
      let qrId ← jStrField ds "qrCodeId".toList
      let redirect ← jStrField ds "redirectUri".toList
      let refresh ← jStrField ds "refreshToken".toList
      .ok ⟨code, message, ⟨url, qrId, redirect, refresh⟩⟩
  | _ => .error "json: cannot unmarshal value into Go value of type QwenQRCodeResponse"

/-- `json.Unmarshal` into the scan-status struct. -/
def unmarshalQwenScanStatusResponse : Json → Except String QwenScanStatusResponse
  | .null => .ok ⟨[], [], ⟨[], []⟩⟩
  | .obj fs => do
    let code ← jStrField fs "code".toList
    let message ← jStrField fs "message".toList
    let dataF ← jObjField fs "data".toList
    match dataF with
    | none => .ok ⟨code, message, ⟨[], []⟩⟩
    | some ds => do
      let status ← jStrField ds "status".toList
      let dcode ← jStrField ds "code".toList
      .ok ⟨code, message, ⟨status, dcode⟩⟩
  | _ => .error "json: cannot unmarshal value into Go value of type scan status struct"

/-! ## The credential and the identity extraction -/

/-- Modelled from the spec: the Credential data model of §3 (`accessToken`,
`refreshToken`, `expiresAt` with absent/zero meaning "does not expire",
`provider`, `authMethod`, best-effort `accountID`).  The Go declaration of
`auth.AuthCredential` lives outside the provided sources; its fields are
exactly the ones `qwen_oauth.go` assigns.  `expiresAt` is a timestamp in
seconds, `none` standing for Go's zero `time.Time`. -/
structure AuthCredential where
  accessToken : List Char
  refreshToken : List Char
  expiresAt : Option Int
  provider : List Char
  authMethod : List Char
  accountID : List Char
  deriving DecidableEq

/-- The `switch len(payload) % 4` padding fix-up in `extractQwenAccountID`. -/
def padB64 (payload : List Char) : List Char :=
  if payload.length % 4 = 2 then payload ++ ['=', '=']
  else if payload.length % 4 = 3 then payload ++ ['=']
  else payload

/-- The decoding pipeline of `extractQwenAccountID` up to the claims map:
split on dots, take the second segment, add padding, decode it with the
standard base64 alphabet, and unmarshal the bytes into a map. -/
def jwtClaims (accessToken : List Char) : Option (List (List Char × Json)) :=
  let parts := goSplit '.' accessToken
  if parts.length < 2 then none
  else
    match b64DecStd (padB64 (parts.getD 1 [])) with
    | none => none
    | some decoded =>
      match parseJsonBytes decoded with
      | some .null => some []
      | some (.obj fs) => some fs
      | _ => none

/-- The key of the user-identity claim. -/
def subKey : List Char := "sub".toList

/-- `extractQwenAccountID` from the source: best-effort extraction of the
`sub` claim; every failure yields the empty string. -/
def extractQwenAccountID (accessToken : List Char) : List Char :=
  match jwtClaims accessToken with
  | none => []
  | some claims =>
    match lookupLast claims subKey with
    | some (.str s) => s
    | _ => []

/-! ## The network-facing operations

Each HTTP call is modelled by passing the server's answer explicitly: a
transport failure, or a status code together with the body (`none` when the
body is not parseable JSON). -/

/-- Outcome of one HTTP round trip as the Go code observes it. -/
inductive HttpResult where
  | failure (msg : String)
  | response (status : Nat) (body : Option Json)

/-- `generateCodeChallenge` from the source.  The source returns the
verifier unchanged; its own comment says a SHA-256 hash should be used and
calls this a simplification. -/
def generateCodeChallenge (verifier : List Char) : List Char :=
  verifier

/-- `generateCodeVerifier` from the source, with the 32 random bytes passed
in explicitly. -/
def generateCodeVerifier (randBytes : List Nat) : List Char :=
  base64URLEncode randBytes

/-- `generateQwenState` from the source, with the 32 random bytes passed in
explicitly. -/
def generateQwenState (randBytes : List Nat) : List Char :=
  hexEncode randBytes

/-- `getQwenQRCode` from the source.  The status code of the response is
never inspected; an unparseable body or a type mismatch is the protocol
error; the parsed struct is returned without any field validation. -/
def getQwenQRCode (resp : HttpResult) : Except String QwenQRCodeResponse :=
  match resp with
  | .failure msg => .error msg
  | .response _ body =>
    match body with
    | none => .error "解析二维码响应失败"
    | some j =>
      match unmarshalQwenQRCodeResponse j with
      | .error _ => .error "解析二维码响应失败"
      | .ok r => .ok r

/-- `exchangeQwenCodeForToken` from the source.  `now` is the value of
`time.Now()` in seconds; `resp` is the token endpoint's answer. -/
def exchangeQwenCodeForToken (code codeVerifier state : List Char)
    (resp : HttpResult) (now : Int) : Except String AuthCredential :=
  match code, codeVerifier, state, resp with
  | _, _, _, .failure msg => .error msg
  | _, _, _, .response status body =>
    if status ≠ 200 then .error "换取令牌失败"
    else
      match body with
      | none => .error "invalid character in token response"
      | some j =>
        match unmarshalQwenTokenResponse j with
        | .error e => .error e
        | .ok tr =>
          if tr.accessToken = [] then .error "未获取到访问令牌"
          else
            let expiresAt : Option Int :=
              if 0 < tr.expiresIn then some (now + tr.expiresIn) else none
            let cred : AuthCredential :=
              ⟨tr.accessToken, tr.refreshToken, expiresAt,
                "qwen".toList, "oauth".toList, []⟩
            let accountID := extractQwenAccountID tr.accessToken
            .ok (if accountID ≠ [] then { cred with accountID := accountID } else cred)

/-- `checkQwenScanStatus` from the source.  `statusResp` is the status
endpoint's answer, `tokenResp` the token endpoint's answer should the
exchange be reached.  `.ok none` is Go's `(nil, nil)`: keep waiting. -/
def checkQwenScanStatus (statusResp tokenResp : HttpResult)
    (codeVerifier state : List Char) (now : Int) :
    Except String (Option AuthCredential) :=
  match statusResp with
  | .failure msg => .error msg
  | .response _ body =>
    match body with
    | none => .error "invalid character in status response"
    | some j =>
      match unmarshalQwenScanStatusResponse j with
      | .error e => .error e
      | .ok sr =>
        if sr.data.status = "AUTHORIZED".toList then
          if sr.data.code = [] then .error "授权码为空"
          else
            match exchangeQwenCodeForToken sr.data.code codeVerifier state tokenResp now with
            | .error e => .error e
            | .ok cred => .ok (some cred)
        else if sr.data.status = "EXPIRED".toList ∨ sr.data.status = "CANCELED".toList then
          .error "二维码已过期或被取消"
        else
          .ok none

/-! ## The polling loop of `LoginQwenQRCode` -/

/-- The ticker interval of the polling loop, in seconds. -/
def tickSeconds : Nat := 3

/-- The overall deadline of the polling loop, in seconds. -/
def deadlineSeconds : Nat := 600

/-- Number of ticker firings strictly before the absolute deadline:
ticks happen at 3, 6, …, 597 seconds; the tick racing the deadline at
600 s is resolved in the deadline's favor. -/
def maxPolls : Nat := 199

/-- The answers the two endpoints give at each poll: `statusResp n` is the
status endpoint's answer to the n-th poll (counting from 0), `tokenResp n`
the token endpoint's answer should that poll reach the exchange. -/
structure PollEnv where
  statusResp : Nat → HttpResult
  tokenResp : Nat → HttpResult

/-- The `select` loop of `LoginQwenQRCode`, unrolled over the remaining
ticks.  Returns the list of times (in seconds) at which the status endpoint
was polled, together with the outcome.  A `checkQwenScanStatus` error is
swallowed (`continue`), `(nil, nil)` keeps waiting, a credential returns,
and an exhausted deadline is the timeout error. -/
def loginPollAux (env : PollEnv) (codeVerifier state : List Char) (now : Int) :
    Nat → Nat → List Nat × Except String AuthCredential
  | _, 0 => ([], .error "扫码超时，请在 10 分钟内完成扫码")
  | n, fuel + 1 =>
    let t := tickSeconds * (n + 1)
    match checkQwenScanStatus (env.statusResp n) (env.tokenResp n) codeVerifier state now with
    | .error _ =>
      let r := loginPollAux env codeVerifier state now (n + 1) fuel
      (t :: r.1, r.2)
    | .ok none =>
      let r := loginPollAux env codeVerifier state now (n + 1) fuel
      (t :: r.1, r.2)
    | .ok (some cred) => ([t], .ok cred)

/-- The polling phase of `LoginQwenQRCode`: poll from tick 1 with the full
tick budget of the 10-minute deadline. -/
def loginQwenPolling (env : PollEnv) (codeVerifier state : List Char) (now : Int) :
    List Nat × Except String AuthCredential :=
  loginPollAux env codeVerifier state now 0 maxPolls

/-- `LoginQwenQRCode` from the source: generate state and verifier from the
given random bytes, derive the challenge, fetch the QR code, then poll.
Printing and the best-effort browser launch have no control-flow effect and
are omitted. -/
def LoginQwenQRCode (stateBytes verifierBytes : List Nat) (qrResp : HttpResult)
    (env : PollEnv) (now : Int) : Except String AuthCredential :=
  let state := generateQwenState stateBytes
  let codeVerifier := generateCodeVerifier verifierBytes
  let _codeChallenge := generateCodeChallenge codeVerifier
  match getQwenQRCode qrResp with
  | .error _ => .error "获取二维码失败"
  | .ok _qr => (loginQwenPolling env codeVerifier state now).2

/-! ## SHA-256, for the PKCE challenge contract

The source's `generateCodeChallenge` is supposed (per its own comment and
the spec) to hash the verifier; the hash itself would come from the
standard library (`crypto/sha256`), which is not part of the repository.
It is implemented here so the intended challenge can be computed. -/

/-- Truncate to a 32-bit word. -/
def w32 (n : Nat) : Nat := n % 4294967296

/-- Rotate a 32-bit word right by `k`. -/
def rotr (k x : Nat) : Nat := w32 (x / 2 ^ k + x % 2 ^ k * 2 ^ (32 - k))

/-- Shift a 32-bit word right by `k`. -/
def shr (k x : Nat) : Nat := x / 2 ^ k

/-- SHA-256 σ0. -/
def sSig0 (x : Nat) : Nat := rotr 7 x ^^^ rotr 18 x ^^^ shr 3 x

/-- SHA-256 σ1. -/
def sSig1 (x : Nat) : Nat := rotr 17 x ^^^ rotr 19 x ^^^ shr 10 x

/-- SHA-256 Σ0. -/
def bSig0 (x : Nat) : Nat := rotr 2 x ^^^ rotr 13 x ^^^ rotr 22 x

/-- SHA-256 Σ1. -/
def bSig1 (x : Nat) : Nat := rotr 6 x ^^^ rotr 11 x ^^^ rotr 25 x

/-- SHA-256 Ch. -/
def chF (x y z : Nat) : Nat := (x &&& y) ^^^ ((x ^^^ 4294967295) &&& z)

/-- SHA-256 Maj. -/
def majF (x y z : Nat) : Nat := (x &&& y) ^^^ (x &&& z) ^^^ (y &&& z)

/-- The SHA-256 round constants, in decimal. -/
def sha256K : List Nat :=
  [1116352408, 1899447441, 3049323471, 3921009573,
   961987163, 1508970993, 2453635748, 2870763221,
   3624381080, 310598401, 607225278, 1426881987,
   1925078388, 2162078206, 2614888103, 3248222580,
   3835390401, 4022224774, 264347078, 604807628,
   770255983, 1249150122, 1555081692, 1996064986,
   2554220882, 2821834349, 2952996808, 3210313671,
   3336571891, 3584528711, 113926993, 338241895,
   666307205, 773529912, 1294757372, 1396182291,
   1695183700, 1986661051, 2177026350, 2456956037,
   2730485921, 2820302411, 3259730800, 3345764771,
   3516065817, 3600352804, 4094571909, 275423344,
   430227734, 506948616, 659060556, 883997877,
   958139571, 1322822218, 1537002063, 1747873779,
   1955562222, 2024104815, 2227730452, 2361852424,
   2428436474, 2756734187, 3204031479, 3329325298]

/-- The eight working variables of the SHA-256 compression function. -/
structure Hash8 where
  a : Nat
  b : Nat
  c : Nat
  d : Nat
  e : Nat
  f : Nat
  g : Nat
  h : Nat

/-- The SHA-256 initial hash value, in decimal. -/
def sha256H0 : Hash8 :=
  ⟨1779033703, 3144134277, 1013904242, 2773480762,
   1359893119, 2600822924, 528734635, 1541459225⟩

/-- Big-endian bytes to 32-bit words. -/
def toWordsBE : List Nat → List Nat
  | b0 :: b1 :: b2 :: b3 :: rest => (b0 * 16777216 + b1 * 65536 + b2 * 256 + b3) :: toWordsBE rest
  | _ => []

/-- Split a word list into 16-word blocks. -/
def chunk16 : List Nat → List (List Nat)
  | w0 :: w1 :: w2 :: w3 :: w4 :: w5 :: w6 :: w7 :: w8 :: w9 :: w10 :: w11 :: w12 :: w13 :: w14 :: w15 :: rest =>
    [w0, w1, w2, w3, w4, w5, w6, w7, w8, w9, w10, w11, w12, w13, w14, w15] :: chunk16 rest
  | _ => []

/-- One message-schedule extension step. -/
def schedExtend (ws : List Nat) : List Nat :=
  let m := ws.length
  ws ++ [w32 (sSig1 (ws.getD (m - 2) 0) + ws.getD (m - 7) 0 + sSig0 (ws.getD (m - 15) 0) + ws.getD (m - 16) 0)]

/-- Extend the 16 block words to the 64 schedule words. -/
def buildSched (ws : List Nat) : Nat → List Nat
  | 0 => ws
  | n + 1 => buildSched (schedExtend ws) n

/-- One SHA-256 compression round; `kw` is the round constant plus the
schedule word. -/
def compressRound (st : Hash8) (kw : Nat) : Hash8 :=
  let t1 := w32 (st.h + bSig1 st.e + chF st.e st.f st.g + kw)
  let t2 := w32 (bSig0 st.a + majF st.a st.b st.c)
  ⟨w32 (t1 + t2), st.a, st.b, st.c, w32 (st.d + t1), st.e, st.f, st.g⟩

/-- Compress one 16-word block into the running hash value. -/
def compressBlock (st : Hash8) (block : List Nat) : Hash8 :=
  let ws := buildSched block 48
  let fin := (List.zip sha256K ws).foldl (fun s p => compressRound s (w32 (p.1 + p.2))) st
  ⟨w32 (st.a + fin.a), w32 (st.b + fin.b), w32 (st.c + fin.c), w32 (st.d + fin.d),
   w32 (st.e + fin.e), w32 (st.f + fin.f), w32 (st.g + fin.g), w32 (st.h + fin.h)⟩

/-- A 32-bit word as four big-endian bytes. -/
def wordBytesBE (w : Nat) : List Nat :=
  [w / 16777216 % 256, w / 65536 % 256, w / 256 % 256, w % 256]

/-- SHA-256 of a byte list (FIPS 180-4). -/
def sha256 (msg : List Nat) : List Nat :=
  let len := msg.length
  let k := (120 - (len + 1) % 64) % 64
  let bits := 8 * len
  let lenBytes := [bits / 2 ^ 56 % 256, bits / 2 ^ 48 % 256, bits / 2 ^ 40 % 256, bits / 2 ^ 32 % 256,
                   bits / 2 ^ 24 % 256, bits / 2 ^ 16 % 256, bits / 2 ^ 8 % 256, bits % 256]
  let padded := msg ++ 128 :: List.replicate k 0 ++ lenBytes
  let blocks := chunk16 (toWordsBE padded)
  let fin := blocks.foldl compressBlock sha256H0
  wordBytesBE fin.a ++ wordBytesBE fin.b ++ wordBytesBE fin.c ++ wordBytesBE fin.d ++
    wordBytesBE fin.e ++ wordBytesBE fin.f ++ wordBytesBE fin.g ++ wordBytesBE fin.h

/-- Modelled from the spec: the S256 PKCE challenge of §4.2,
`codeChallenge = base64url_nopad(SHA256(verifier))`.  The SHA-256 call the
contract refers to would come from Go's `crypto/sha256`, which is not among
the repository sources. -/
def specCodeChallenge (verifier : List Char) : List Char :=
  b64EncNoPad b64CharUrl (sha256 (verifier.map Char.toNat))

/-! ## Concrete fixtures used by witnesses and counterexamples -/

/-- A status response whose grant status is `EXPIRED`. -/
def expiredStatusJson : Json :=
  .obj [("data".toList, .obj [("status".toList, .str "EXPIRED".toList)])]

/-- A status response whose grant status is `PENDING`. -/
def pendingStatusJson : Json :=
  .obj [("data".toList, .obj [("status".toList, .str "PENDING".toList)])]

/-- A status response whose grant status is the unrecognized
`QR_CODE_SCANNED`. -/
def scannedStatusJson : Json :=
  .obj [("data".toList, .obj [("status".toList, .str "QR_CODE_SCANNED".toList)])]

/-- A well-formed token response: `access_token` "tok", `refresh_token`
"r", `expires_in` 3600. -/
def tokJson : Json :=
  .obj [("access_token".toList, .str "tok".toList),
        ("refresh_token".toList, .str "r".toList),
        ("expires_in".toList, .num 3600)]

/-- A well-formed QR-code response carrying `qrCodeUrl` "u" and `qrCodeId`
"i". -/
def qrOkJson : Json :=
  .obj [("data".toList, .obj [("qrCodeUrl".toList, .str "u".toList),
                              ("qrCodeId".toList, .str "i".toList)])]

/-- An environment whose status endpoint always answers `EXPIRED`. -/
def envExpired : PollEnv :=
  ⟨fun _ => .response 200 (some expiredStatusJson), fun _ => .response 200 none⟩

/-- An environment whose status endpoint always answers `PENDING`. -/
def envPending : PollEnv :=
  ⟨fun _ => .response 200 (some pendingStatusJson), fun _ => .response 200 none⟩

/-- The JSON document `{"sub":<s>}` as bytes, for a string value `s`. -/
def subJsonBytes (s : List Nat) : List Nat :=
  [123, 34, 115, 117, 98, 34, 58, 34] ++ s ++ [34, 125]

/-- A token response whose `access_token` is present but empty. -/
def emptyTokJson : Json :=
  .obj [("access_token".toList, .str [])]

/-- A JWT-shaped token whose payload is the standard-base64 encoding of
`{"sub":"abc"}`. -/
def tokenSubAbc : List Char :=
  "abc.eyJzdWIiOiJhYmMifQ.sig".toList

/-- A JWT-shaped token whose payload encodes `{"sub":5}` — a non-string
`sub`. -/
def tokenSubNum : List Char :=
  "abc.".toList ++ b64EncNoPad b64CharStd [123, 34, 115, 117, 98, 34, 58, 53, 125] ++ ".sig".toList

/-! ## Claim C1 -/

/-- C1: the claim says `generateCodeChallenge v = base64url_nopad(SHA256 v)`
for every verifier `v`.  The source instead returns the verifier unchanged
(its own comment calls the hash "simplified away"), so at the verifier
"abc" the computed challenge differs from the one the claim requires: the
code has the bug the spec's §9 design note describes. -/
theorem c1_generateCodeChallenge_returns_verifier_unhashed :
    (∀ v : List Char, generateCodeChallenge v = v) ∧
      generateCodeChallenge "abc".toList ≠ specCodeChallenge "abc".toList := by
  refine ⟨fun v => rfl, ?_⟩
  decide

/-! ## Claim C2 -/

/-- C2: the claim says a poll observing `EXPIRED` makes `LoginQwenQRCode`
fail immediately with the grant-terminated error and no further polls.  In
the source, the loop's `if err != nil { continue }` swallows the
grant-terminated error `checkQwenScanStatus` produces, so with a server
that answers `EXPIRED` from the very first poll the flow still performs all
`maxPolls` polls and ends with the timeout error — the grant-terminated
message can never reach the caller, contradicting both the spec and the
purpose of the error the code itself constructs. -/
theorem c2_expired_is_swallowed_until_timeout :
    LoginQwenQRCode [] [] (.response 200 (some qrOkJson)) envExpired 0 =
        .error "扫码超时，请在 10 分钟内完成扫码" ∧
      (loginQwenPolling envExpired [] [] 0).1.length = maxPolls ∧
      checkQwenScanStatus (envExpired.statusResp 0) (envExpired.tokenResp 0) [] [] 0 =
        .error "二维码已过期或被取消" := by
  refine ⟨?_, ?_, rfl⟩ <;> rfl

/-! ## Claim C3 -/

/-- When every poll keeps waiting, the loop runs through its whole tick
budget and ends with the timeout error, having polled once per tick. -/
theorem loginPollAux_result_of_continue (env : PollEnv) (cv stt : List Char) (now : Int)
    (h : ∀ n, checkQwenScanStatus (env.statusResp n) (env.tokenResp n) cv stt now = .ok none) :
    ∀ fuel n, (loginPollAux env cv stt now n fuel).2 = .error "扫码超时，请在 10 分钟内完成扫码" ∧
      (loginPollAux env cv stt now n fuel).1.length = fuel := by
  intro fuel
  induction fuel with
  | zero => intro n; exact ⟨rfl, rfl⟩
  | succ f ih =>
    intro n
    simp only [loginPollAux, h n]
    refine ⟨(ih (n + 1)).1, ?_⟩
    simp [(ih (n + 1)).2]

/-- C3: with a server that perpetually answers `PENDING`, the polling phase
of `LoginQwenQRCode` stops at the deadline with the timeout error, after
exactly `maxPolls` polls — it neither succeeds nor polls forever. -/
theorem c3_perpetual_pending_times_out (env : PollEnv) (cv stt : List Char) (now : Int)
    (j : Json) (sr : QwenScanStatusResponse)
    (hj : unmarshalQwenScanStatusResponse j = .ok sr)
    (hst : sr.data.status = "PENDING".toList)
    (henv : ∀ n, env.statusResp n = .response 200 (some j)) :
    (loginQwenPolling env cv stt now).2 = .error "扫码超时，请在 10 分钟内完成扫码" ∧
      (loginQwenPolling env cv stt now).1.length = maxPolls := by
  have hch : ∀ n, checkQwenScanStatus (env.statusResp n) (env.tokenResp n) cv stt now = .ok none := by
    intro n
    rw [henv n]
    simp only [checkQwenScanStatus, hj]
    rw [if_neg (by rw [hst]; decide), if_neg (by rw [hst]; decide)]
  exact ⟨(loginPollAux_result_of_continue env cv stt now hch maxPolls 0).1,
         (loginPollAux_result_of_continue env cv stt now hch maxPolls 0).2⟩

/-- Witness for C3 at a concrete always-`PENDING` stub server. -/
theorem c3_witness :
    (loginQwenPolling envPending [] [] 0).2 = .error "扫码超时，请在 10 分钟内完成扫码" ∧
      (loginQwenPolling envPending [] [] 0).1.length = maxPolls :=
  c3_perpetual_pending_times_out envPending [] [] 0 pendingStatusJson
    ⟨[], [], ⟨"PENDING".toList, []⟩⟩ rfl rfl (fun _ => rfl)

/-! ## Claim C4 -/

/-- C4: a token-endpoint response with success status whose parsed
`access_token` is empty makes the exchange fail with the protocol error,
and no successful exchange ever carries an empty access token. -/
theorem c4_empty_access_token_rejected :
    (∀ (code cv st : List Char) (now : Int) (j : Json) (tr : QwenTokenResponse),
        unmarshalQwenTokenResponse j = .ok tr → tr.accessToken = [] →
        exchangeQwenCodeForToken code cv st (.response 200 (some j)) now =
          .error "未获取到访问令牌") ∧
    (∀ (code cv st : List Char) (resp : HttpResult) (now : Int) (c : AuthCredential),
        exchangeQwenCodeForToken code cv st resp now = .ok c → c.accessToken ≠ []) := by
  constructor
  · intro code cv st now j tr hj htr
    simp [exchangeQwenCodeForToken, hj, htr]
  · intro code cv st resp now c hx
    unfold exchangeQwenCodeForToken at hx
    split at hx
    · exact Except.noConfusion hx
    · split at hx
      · exact Except.noConfusion hx
      · split at hx
        · exact Except.noConfusion hx
        · split at hx
          · exact Except.noConfusion hx
          · split at hx
            · exact Except.noConfusion hx
            · rename_i htr
              injection hx with hx
              subst hx
              split <;> simpa using htr

/-! ## Claim C6 -/

/-- C6 counterexample: the claim says `getQwenQRCode` fails when the
response omits `qrCodeId`/`qrCodeUrl` and never returns a session with
those fields empty.  On the parseable body `{}` the source returns the
zero-valued session — both fields empty — instead of an error. -/
theorem c6_counterexample_empty_fields_accepted :
    getQwenQRCode (.response 200 (some (Json.obj []))) =
        .ok ⟨[], [], ⟨[], [], [], []⟩⟩ ∧
      (⟨[], [], ⟨[], [], [], []⟩⟩ : QwenQRCodeResponse).data.qrCodeId = [] ∧
      (⟨[], [], ⟨[], [], [], []⟩⟩ : QwenQRCodeResponse).data.qrCodeUrl = [] :=
  ⟨rfl, rfl, rfl⟩

/-- C6 amended: `getQwenQRCode` fails with the protocol error exactly when
the body is not parseable JSON or does not unmarshal into the response
struct; it performs no validation of `qrCodeId`/`qrCodeUrl` and returns
whatever session the body parsed to, empty fields included. -/
theorem c6_protocol_error_only_on_parse_failure :
    (∀ st : Nat, getQwenQRCode (.response st none) = .error "解析二维码响应失败") ∧
    (∀ (st : Nat) (j : Json) (e : String), unmarshalQwenQRCodeResponse j = .error e →
        getQwenQRCode (.response st (some j)) = .error "解析二维码响应失败") ∧
    (∀ (st : Nat) (j : Json) (r : QwenQRCodeResponse), unmarshalQwenQRCodeResponse j = .ok r →
        getQwenQRCode (.response st (some j)) = .ok r) := by
  refine ⟨fun st => rfl, fun st j e hj => ?_, fun st j r hj => ?_⟩ <;>
    simp [getQwenQRCode, hj]

/-! ## Claim C7 -/

/-- C7: a successful exchange sets `expiresAt` to `now + expiresIn` exactly
when the server reported a strictly positive `expires_in`; otherwise it is
absent (`none`, Go's zero `time.Time`), meaning the credential does not
expire. -/
theorem c7_expiry_set_iff_positive (code cv st : List Char) (now : Int) (j : Json)
    (tr : QwenTokenResponse) (c : AuthCredential)
    (hj : unmarshalQwenTokenResponse j = .ok tr)
    (hx : exchangeQwenCodeForToken code cv st (.response 200 (some j)) now = .ok c) :
    (0 < tr.expiresIn → c.expiresAt = some (now + tr.expiresIn)) ∧
      (tr.expiresIn ≤ 0 → c.expiresAt = none) := by
  simp only [exchangeQwenCodeForToken, hj] at hx
  rw [if_neg (by norm_num)] at hx
  split at hx
  · exact Except.noConfusion hx
  · injection hx with hx
    subst hx
    constructor
    · intro hpos
      split <;> simp [if_pos hpos]
    · intro hnonpos
      split <;> simp [if_neg (by omega : ¬ (0:Int) < tr.expiresIn)]

/-! ## Claim C8 -/

/-- C8: a parsed status response whose status is none of `AUTHORIZED`,
`EXPIRED`, `CANCELED` — `PENDING`, `SCANNED`, `QR_CODE_SCANNED`, the empty
string, anything — makes `checkQwenScanStatus` return Go's `(nil, nil)`,
and the polling loop then records the poll and keeps going. -/
theorem c8_nonterminal_status_continues :
    (∀ (st0 : Nat) (j : Json) (sr : QwenScanStatusResponse) (tokenResp : HttpResult)
        (cv stt : List Char) (now : Int),
        unmarshalQwenScanStatusResponse j = .ok sr →
        sr.data.status ≠ "AUTHORIZED".toList →
        sr.data.status ≠ "EXPIRED".toList →
        sr.data.status ≠ "CANCELED".toList →
        checkQwenScanStatus (.response st0 (some j)) tokenResp cv stt now = .ok none) ∧
    (∀ (env : PollEnv) (cv stt : List Char) (now : Int) (n fuel : Nat),
        checkQwenScanStatus (env.statusResp n) (env.tokenResp n) cv stt now = .ok none →
        loginPollAux env cv stt now n (fuel + 1) =
          (tickSeconds * (n + 1) :: (loginPollAux env cv stt now (n + 1) fuel).1,
            (loginPollAux env cv stt now (n + 1) fuel).2)) := by
  constructor
  · intro st0 j sr tokenResp cv stt now hj h1 h2 h3
    simp only [checkQwenScanStatus, hj]
    rw [if_neg h1, if_neg (by rintro (h | h); exacts [h2 h, h3 h])]
  · intro env cv stt now n fuel hc
    simp [loginPollAux, hc]

/-! ## Claim C10 -/

/-- When the decoding pipeline fails, the extraction result is empty. -/
theorem extract_of_no_claims {t : List Char} (hc : jwtClaims t = none) :
    extractQwenAccountID t = [] := by
  unfold extractQwenAccountID
  rw [hc]

/-- When the decoding pipeline yields a claims map, the extraction result
is the string value of its `sub` entry, or empty. -/
theorem extract_of_claims {t : List Char} {fs : List (List Char × Json)}
    (hc : jwtClaims t = some fs) :
    extractQwenAccountID t =
      (match lookupLast fs subKey with
       | some (.str s) => s
       | _ => []) := by
  unfold extractQwenAccountID
  rw [hc]

/-- C10: `extractQwenAccountID` returns a non-empty result only when the
decoded payload's claims contain a `sub` field that is a JSON string (and
then returns exactly that string); a `sub` that is a number, boolean,
object, array, or null yields the empty string. -/
theorem c10_nonempty_only_from_string_sub :
    (∀ t : List Char, extractQwenAccountID t ≠ [] →
        ∃ fs s, jwtClaims t = some fs ∧
          lookupLast fs subKey = some (.str s) ∧ extractQwenAccountID t = s) ∧
    (∀ (t : List Char) (fs : List (List Char × Json)) (v : Json),
        jwtClaims t = some fs → lookupLast fs subKey = some v →
        v.isStr = false → extractQwenAccountID t = []) := by
  constructor
  · intro t ht
    cases hc : jwtClaims t with
    | none => exact absurd (extract_of_no_claims hc) ht
    | some fs =>
      rw [extract_of_claims hc] at ht
      cases hl : lookupLast fs subKey with
      | none => rw [hl] at ht; exact absurd rfl ht
      | some v =>
        rw [hl] at ht
        cases v with
        | str s => exact ⟨fs, s, rfl, hl, by rw [extract_of_claims hc, hl]⟩
        | null => exact absurd rfl ht
        | bool b => exact absurd rfl ht
        | num n => exact absurd rfl ht
        | arr es => exact absurd rfl ht
        | obj fs2 => exact absurd rfl ht
  · intro t fs v hc hl hv
    cases v with
    | str s => exact Bool.noConfusion hv
    | null => rw [extract_of_claims hc, hl]
    | bool b => rw [extract_of_claims hc, hl]
    | num n => rw [extract_of_claims hc, hl]
    | arr es => rw [extract_of_claims hc, hl]
    | obj fs2 => rw [extract_of_claims hc, hl]

/-! ## Claim C9 -/

/-- Every poll recorded by the loop happens at or after the tick that
starts it: the n-th iteration polls at `tickSeconds * (n + 1)`. -/
theorem loginPollAux_trace_lb (env : PollEnv) (cv stt : List Char) (now : Int) :
    ∀ fuel n t, t ∈ (loginPollAux env cv stt now n fuel).1 → tickSeconds * (n + 1) ≤ t := by
  intro fuel
  induction fuel with
  | zero => intro n t ht; simp [loginPollAux] at ht
  | succ f ih =>
    intro n t ht
    have step : tickSeconds * (n + 1) ≤ tickSeconds * (n + 1 + 1) :=
      Nat.mul_le_mul_left _ (by omega)
    cases hch : checkQwenScanStatus (env.statusResp n) (env.tokenResp n) cv stt now with
    | error e =>
      simp only [loginPollAux, hch] at ht
      rcases List.mem_cons.mp ht with rfl | hmem
      · exact le_refl _
      · exact le_trans step (ih (n + 1) t hmem)
    | ok o =>
      cases o with
      | none =>
        simp only [loginPollAux, hch] at ht
        rcases List.mem_cons.mp ht with rfl | hmem
        · exact le_refl _
        · exact le_trans step (ih (n + 1) t hmem)
      | some c =>
        simp only [loginPollAux, hch] at ht
        rcases List.mem_cons.mp ht with rfl | hmem
        · exact le_refl _
        · simp at hmem

/-- Whatever the environment answers, an iteration with fuel left polls
exactly at its tick time. -/
theorem loginPollAux_trace_head (env : PollEnv) (cv stt : List Char) (now : Int)
    (n fuel : Nat) :
    (loginPollAux env cv stt now n (fuel + 1)).1.head? = some (tickSeconds * (n + 1)) := by
  cases hch : checkQwenScanStatus (env.statusResp n) (env.tokenResp n) cv stt now with
  | error e => simp [loginPollAux, hch]
  | ok o => cases o <;> simp [loginPollAux, hch]

/-- C9: the polling phase contacts the status endpoint for the first time
at the first 3-second tick, never earlier — every recorded poll time is at
least `tickSeconds`, and the first one is exactly `tickSeconds`. -/
theorem c9_first_poll_after_one_tick (env : PollEnv) (cv stt : List Char) (now : Int) :
    (∀ t ∈ (loginQwenPolling env cv stt now).1, tickSeconds ≤ t) ∧
      (loginQwenPolling env cv stt now).1.head? = some tickSeconds := by
  constructor
  · intro t ht
    have h := loginPollAux_trace_lb env cv stt now maxPolls 0 t ht
    simpa using h
  · have h := loginPollAux_trace_head env cv stt now 0 198
    simpa [loginQwenPolling, maxPolls] using h

/-- Witness for C9 at a concrete environment: the first recorded poll time
is the 3-second tick. -/
theorem c9_witness :
    tickSeconds ≤ 3 ∧
      (loginQwenPolling envPending [] [] 0).1.head? = some tickSeconds :=
  ⟨(c9_first_poll_after_one_tick envPending [] [] 0).1 3 (by decide),
   (c9_first_poll_after_one_tick envPending [] [] 0).2⟩

/-! ## Claim C5: infrastructure -/

/-- A list without the separator is split into itself alone. -/
theorem goSplit_of_not_mem {sep : Char} : ∀ l : List Char, sep ∉ l → goSplit sep l = [l] := by
  intro l
  induction l with
  | nil => intro _; rfl
  | cons c cs ih =>
    intro h
    have hc : ¬ c = sep := fun he => h (he ▸ List.mem_cons_self c cs)
    have hcs : sep ∉ cs := fun hm => h (List.mem_cons_of_mem c hm)
    simp only [goSplit, if_neg hc, ih hcs]

/-- Splitting at the first separator occurrence. -/
theorem goSplit_append {sep : Char} : ∀ l r : List Char, sep ∉ l →
    goSplit sep (l ++ sep :: r) = l :: goSplit sep r := by
  intro l
  induction l with
  | nil => intro r _; simp [goSplit]
  | cons c cs ih =>
    intro r h
    have hc : ¬ c = sep := fun he => h (he ▸ List.mem_cons_self c cs)
    have hcs : sep ∉ cs := fun hm => h (List.mem_cons_of_mem c hm)
    simp only [List.cons_append, goSplit, if_neg hc, List.append_eq, ih r hcs]

/-- Every character the encoder emits is an alphabet character. -/
theorem mem_b64EncNoPad (tbl : Nat → Char) :
    ∀ bs : List Nat, (∀ b ∈ bs, b < 256) →
      ∀ c ∈ b64EncNoPad tbl bs, ∃ v, v < 64 ∧ c = tbl v := by
  suffices h : ∀ (n : Nat) (bs : List Nat), bs.length ≤ n → (∀ b ∈ bs, b < 256) →
      ∀ c ∈ b64EncNoPad tbl bs, ∃ v, v < 64 ∧ c = tbl v by
    intro bs hb c hc
    exact h bs.length bs le_rfl hb c hc
  intro n
  induction n with
  | zero =>
    intro bs hlen hb c hc
    match bs with
    | [] => simp [b64EncNoPad] at hc
    | _ :: _ => simp at hlen
  | succ n ih =>
    intro bs hlen hb c hc
    match bs with
    | [] => simp [b64EncNoPad] at hc
    | [b1] =>
      have h1 : b1 < 256 := hb b1 (by simp)
      simp only [b64EncNoPad, List.mem_cons, List.not_mem_nil, or_false] at hc
      rcases hc with rfl | rfl
      · exact ⟨b1 / 4, by omega, rfl⟩
      · exact ⟨b1 % 4 * 16, by omega, rfl⟩
    | [b1, b2] =>
      have h1 : b1 < 256 := hb b1 (by simp)
      have h2 : b2 < 256 := hb b2 (by simp)
      simp only [b64EncNoPad, List.mem_cons, List.not_mem_nil, or_false] at hc
      rcases hc with rfl | rfl | rfl
      · exact ⟨b1 / 4, by omega, rfl⟩
      · exact ⟨b1 % 4 * 16 + b2 / 16, by omega, rfl⟩
      · exact ⟨b2 % 16 * 4, by omega, rfl⟩
    | b1 :: b2 :: b3 :: rest =>
      have h1 : b1 < 256 := hb b1 (by simp)
      have h2 : b2 < 256 := hb b2 (by simp)
      have h3 : b3 < 256 := hb b3 (by simp)
      simp only [b64EncNoPad, List.mem_cons] at hc
      rcases hc with rfl | rfl | rfl | rfl | hmem
      · exact ⟨b1 / 4, by omega, rfl⟩
      · exact ⟨b1 % 4 * 16 + b2 / 16, by omega, rfl⟩
      · exact ⟨b2 % 16 * 4 + b3 / 64, by omega, rfl⟩
      · exact ⟨b3 % 64, by omega, rfl⟩
      · exact ih rest (by simp at hlen; omega)
          (fun b hbm => hb b (by simp [hbm])) c hmem

/-- Padding distributes over a full leading group. -/
theorem padB64_cons4 (a b c d : Char) (l : List Char) :
    padB64 (a :: b :: c :: d :: l) = a :: b :: c :: d :: padB64 l := by
  have h : (a :: b :: c :: d :: l).length % 4 = l.length % 4 := by
    simp [List.length_cons]
    omega
  unfold padB64
  rw [h]
  by_cases h2 : l.length % 4 = 2
  · rw [if_pos h2, if_pos h2]
    simp
  · rw [if_neg h2, if_neg h2]
    by_cases h3 : l.length % 4 = 3
    · rw [if_pos h3, if_pos h3]
      simp
    · rw [if_neg h3, if_neg h3]

/-- Decoding with the source's padding fix-up inverts no-padding encoding
over the standard alphabet. -/
theorem b64_roundtrip :
    ∀ bs : List Nat, (∀ b ∈ bs, b < 256) →
      b64DecStd (padB64 (b64EncNoPad b64CharStd bs)) = some bs := by
  have hval : ∀ v : Nat, v < 64 → b64ValStd (b64CharStd v) = some v := by decide
  have hne : ∀ v : Nat, v < 64 → ¬ b64CharStd v = '=' := by decide
  suffices h : ∀ (n : Nat) (bs : List Nat), bs.length ≤ n → (∀ b ∈ bs, b < 256) →
      b64DecStd (padB64 (b64EncNoPad b64CharStd bs)) = some bs by
    intro bs hb
    exact h bs.length bs le_rfl hb
  intro n
  induction n with
  | zero =>
    intro bs hlen hb
    match bs with
    | [] => rfl
    | _ :: _ => simp at hlen
  | succ n ih =>
    intro bs hlen hb
    match bs with
    | [] => rfl
    | [b1] =>
      have h1 : b1 < 256 := hb b1 (by simp)
      show b64DecStd (padB64 [b64CharStd (b1 / 4), b64CharStd (b1 % 4 * 16)]) = some [b1]
      rw [show padB64 [b64CharStd (b1 / 4), b64CharStd (b1 % 4 * 16)] =
            [b64CharStd (b1 / 4), b64CharStd (b1 % 4 * 16), '=', '='] from rfl]
      have hva := hval (b1 / 4) (by omega)
      have hvb := hval (b1 % 4 * 16) (by omega)
      simp only [b64DecStd, hva, hvb]
      rw [if_pos ⟨trivial, trivial, trivial⟩]
      have e1 : b1 / 4 * 4 + b1 % 4 * 16 / 16 = b1 := by omega
      rw [e1]
    | [b1, b2] =>
      have h1 : b1 < 256 := hb b1 (by simp)
      have h2 : b2 < 256 := hb b2 (by simp)
      show b64DecStd (padB64 [b64CharStd (b1 / 4), b64CharStd (b1 % 4 * 16 + b2 / 16),
          b64CharStd (b2 % 16 * 4)]) = some [b1, b2]
      rw [show padB64 [b64CharStd (b1 / 4), b64CharStd (b1 % 4 * 16 + b2 / 16),
            b64CharStd (b2 % 16 * 4)] =
          [b64CharStd (b1 / 4), b64CharStd (b1 % 4 * 16 + b2 / 16),
            b64CharStd (b2 % 16 * 4), '='] from rfl]
      have hva := hval (b1 / 4) (by omega)
      have hvb := hval (b1 % 4 * 16 + b2 / 16) (by omega)
      have hvc := hval (b2 % 16 * 4) (by omega)
      simp only [b64DecStd, hva, hvb]
      rw [if_neg (fun hcon => hne (b2 % 16 * 4) (by omega) hcon.1)]
      rw [if_pos ⟨trivial, trivial⟩]
      simp only [hvc]
      have e1 : b1 / 4 * 4 + (b1 % 4 * 16 + b2 / 16) / 16 = b1 := by omega
      have e2 : (b1 % 4 * 16 + b2 / 16) % 16 * 16 + b2 % 16 * 4 / 4 = b2 := by omega
      rw [e1, e2]
    | b1 :: b2 :: b3 :: rest =>
      have h1 : b1 < 256 := hb b1 (by simp)
      have h2 : b2 < 256 := hb b2 (by simp)
      have h3 : b3 < 256 := hb b3 (by simp)
      have ihrest : b64DecStd (padB64 (b64EncNoPad b64CharStd rest)) = some rest :=
        ih rest (by simp at hlen; omega) (fun b hbm => hb b (by simp [hbm]))
      show b64DecStd (padB64 (b64CharStd (b1 / 4) :: b64CharStd (b1 % 4 * 16 + b2 / 16) ::
          b64CharStd (b2 % 16 * 4 + b3 / 64) :: b64CharStd (b3 % 64) ::
          b64EncNoPad b64CharStd rest)) = some (b1 :: b2 :: b3 :: rest)
      rw [padB64_cons4]
      have hva := hval (b1 / 4) (by omega)
      have hvb := hval (b1 % 4 * 16 + b2 / 16) (by omega)
      have hvc := hval (b2 % 16 * 4 + b3 / 64) (by omega)
      have hvd := hval (b3 % 64) (by omega)
      simp only [b64DecStd, hva, hvb]
      rw [if_neg (fun hcon => hne (b2 % 16 * 4 + b3 / 64) (by omega) hcon.1)]
      rw [if_neg (fun hcon => hne (b3 % 64) (by omega) hcon.1)]
      simp only [hvc, hvd, ihrest]
      have e1 : b1 / 4 * 4 + (b1 % 4 * 16 + b2 / 16) / 16 = b1 := by omega
      have e2 : (b1 % 4 * 16 + b2 / 16) % 16 * 16 + (b2 % 16 * 4 + b3 / 64) / 4 = b2 := by omega
      have e3 : (b2 % 16 * 4 + b3 / 64) % 4 * 64 + b3 % 64 = b3 := by omega
      rw [e1, e2, e3]

/-- Reading a JSON string body made of plain bytes (no quote, backslash or
control bytes) consumes it up to the closing quote. -/
theorem pStr_no_escape : ∀ s rest : List Nat,
    (∀ b ∈ s, 32 ≤ b ∧ b ≠ 34 ∧ b ≠ 92) →
    pStr (s ++ 34 :: rest) = some (s.map Char.ofNat, rest) := by
  intro s
  induction s with
  | nil =>
    intro rest _
    show pStrA false ((34 : Nat) :: rest) = some ([], rest)
    simp [pStrA]
  | cons b bs ih =>
    intro rest hb
    obtain ⟨h32, h34, h92⟩ := hb b (by simp)
    have ih2 : pStrA false (bs ++ 34 :: rest) = some (bs.map Char.ofNat, rest) :=
      ih rest (fun x hx => hb x (by simp [hx]))
    show pStrA false (b :: (bs ++ 34 :: rest)) = some ((b :: bs).map Char.ofNat, rest)
    simp only [pStrA]
    rw [if_neg (by omega), if_neg (by omega), if_neg (by omega), ih2]
    rfl

/-- Parsing the document `{"sub":"<s>"}` with three fuel steps to spare. -/
theorem pStep_subJson (s : List Nat) (hs : ∀ b ∈ s, 32 ≤ b ∧ b ≠ 34 ∧ b ≠ 92) (g : Nat) :
    pStep (g + 3) .val (subJsonBytes s) =
      some (.val (.obj [([Char.ofNat 115, Char.ofNat 117, Char.ofNat 98],
        Json.str (s.map Char.ofNat))]), []) := by
  have e3 : pStep (g + 1) .val ((34 : Nat) :: (s ++ [34, 125])) =
      some (.val (.str (s.map Char.ofNat)), [125]) := by
    have h1 := pStr_no_escape s [125] hs
    calc pStep (g + 1) .val ((34 : Nat) :: (s ++ [34, 125]))
        = (match pStr (s ++ 34 :: [125]) with
           | some (str, rest) => some (.val (.str str), rest)
           | none => none) := rfl
      _ = some (.val (.str (s.map Char.ofNat)), [125]) := by rw [h1]
  have e2 : pStep (g + 2) .fieldsRest
        ((34 : Nat) :: 115 :: 117 :: 98 :: 34 :: 58 :: 34 :: (s ++ [34, 125])) =
      some (.fields [([Char.ofNat 115, Char.ofNat 117, Char.ofNat 98],
        Json.str (s.map Char.ofNat))], []) := by
    have hscan : pStrA false ((115 : Nat) :: 117 :: 98 :: 34 :: 58 :: 34 :: (s ++ [34, 125])) =
        some ([Char.ofNat 115, Char.ofNat 117, Char.ofNat 98], 58 :: 34 :: (s ++ [34, 125])) := rfl
    conv_lhs => rw [pStep.eq_def]
    simp only [pStr, skipWs]
    norm_num
    rw [hscan]
    simp only []
    rw [show skipWs ((58 : Nat) :: 34 :: (s ++ [34, 125])) = 58 :: 34 :: (s ++ [34, 125]) from rfl]
    simp only []
    rw [e3]
    simp only [skipWs]
    norm_num
  conv_lhs => rw [pStep.eq_def]
  simp only [skipWs]
  norm_num
  rw [show skipWs ((34 : Nat) :: 115 :: 117 :: 98 :: 34 :: 58 :: 34 :: (s ++ [34, 125])) =
        34 :: 115 :: 117 :: 98 :: 34 :: 58 :: 34 :: (s ++ [34, 125]) from rfl]
  simp only []
  rw [e2]

/-- `json.Unmarshal`-level statement: the whole document `{"sub":"<s>"}`
parses to the singleton object. -/
theorem parse_subJsonBytes (s : List Nat) (hs : ∀ b ∈ s, 32 ≤ b ∧ b ≠ 34 ∧ b ≠ 92) :
    parseJsonBytes (subJsonBytes s) = some (.obj [(subKey, .str (s.map Char.ofNat))]) := by
  obtain ⟨g, hg⟩ : ∃ g, 2 * (subJsonBytes s).length + 2 = g + 3 :=
    ⟨2 * (subJsonBytes s).length - 1, by simp [subJsonBytes]; omega⟩
  unfold parseJsonBytes
  rw [hg, pStep_subJson s hs g]
  rfl

/-- A well-formed JWT-shaped token: header `abc`, standard-base64 payload
`{"sub":"<s>"}` without padding, signature `sig`. -/
def jwtTokenStd (s : List Nat) : List Char :=
  "abc.".toList ++ b64EncNoPad b64CharStd (subJsonBytes s) ++ ".sig".toList

/-- Every byte of the payload document is a byte. -/
theorem subJsonBytes_lt (s : List Nat) (hs : ∀ b ∈ s, b < 256) :
    ∀ b ∈ subJsonBytes s, b < 256 := by
  intro b hb
  rcases List.mem_append.mp hb with h12 | h2
  · rcases List.mem_append.mp h12 with h0 | h1
    · have : b = 123 ∨ b = 34 ∨ b = 115 ∨ b = 117 ∨ b = 98 ∨ b = 34 ∨ b = 58 ∨ b = 34 := by
        simpa using h0
      omega
    · exact hs b h1
  · have : b = 34 ∨ b = 125 := by simpa using h2
    omega

/-- The decoding pipeline of `extractQwenAccountID` recovers the claims of
a standard-base64 JWT-shaped token. -/
theorem jwtClaims_token (s : List Nat)
    (hs : ∀ b ∈ s, 32 ≤ b ∧ b < 256 ∧ b ≠ 34 ∧ b ≠ 92) :
    jwtClaims (jwtTokenStd s) = some [(subKey, .str (s.map Char.ofNat))] := by
  have hs1 : ∀ b ∈ s, 32 ≤ b ∧ b ≠ 34 ∧ b ≠ 92 :=
    fun b hb => ⟨(hs b hb).1, (hs b hb).2.2⟩
  have hbytes : ∀ b ∈ subJsonBytes s, b < 256 :=
    subJsonBytes_lt s (fun b hb => (hs b hb).2.1)
  have hnodot : ('.' : Char) ∉ b64EncNoPad b64CharStd (subJsonBytes s) := by
    intro hmem
    obtain ⟨v, hv, hc⟩ := mem_b64EncNoPad b64CharStd (subJsonBytes s) hbytes '.' hmem
    revert hc
    have hdot : ∀ v : Nat, v < 64 → ¬ ('.' : Char) = b64CharStd v := by decide
    exact hdot v hv
  have hsplit : goSplit '.' (jwtTokenStd s) =
      [['a', 'b', 'c'], b64EncNoPad b64CharStd (subJsonBytes s), ['s', 'i', 'g']] := by
    show goSplit '.' (['a', 'b', 'c'] ++ '.' ::
        (b64EncNoPad b64CharStd (subJsonBytes s) ++ '.' :: ['s', 'i', 'g'])) = _
    rw [goSplit_append _ _ (by decide), goSplit_append _ _ hnodot,
      goSplit_of_not_mem _ (by decide)]
  simp only [jwtClaims, hsplit]
  rw [if_neg (by simp)]
  rw [show ([['a', 'b', 'c'], b64EncNoPad b64CharStd (subJsonBytes s),
        ['s', 'i', 'g']].getD 1 []) = b64EncNoPad b64CharStd (subJsonBytes s) from rfl]
  rw [b64_roundtrip (subJsonBytes s) hbytes]
  simp only []
  rw [parse_subJsonBytes s hs1]

/-- C5 (success direction): extraction recovers the `sub` value of a
standard-base64 JWT-shaped token. -/
theorem extract_jwtTokenStd (s : List Nat)
    (hs : ∀ b ∈ s, 32 ≤ b ∧ b < 256 ∧ b ≠ 34 ∧ b ≠ 92) :
    extractQwenAccountID (jwtTokenStd s) = s.map Char.ofNat := by
  rw [extract_of_claims (jwtClaims_token s hs)]
  rfl

/-- A JWT-shaped token whose payload is the URL-SAFE base64 encoding of
`{"sub":"???"}` — its encoding contains `_`, which the standard alphabet
rejects. -/
def tokenUrlQQQ : List Char :=
  "abc.".toList ++ b64EncNoPad b64CharUrl (subJsonBytes [63, 63, 63]) ++ ".sig".toList

/-- C5 counterexample: the claim says a token `abc.<base64url JSON with
sub>.sig` extracts the `sub` value.  The source decodes the payload with
`base64.StdEncoding`, so the base64url payload of `{"sub":"???"}` (whose
encoding contains `_`) fails to decode and extraction returns the empty
string instead of `???`. -/
theorem c5_counterexample_base64url_payload_rejected :
    extractQwenAccountID tokenUrlQQQ = [] ∧
      extractQwenAccountID tokenUrlQQQ ≠ "???".toList := by
  constructor <;> decide

/-- C5 amended: extraction is total and best-effort over STANDARD-base64
payloads: a token `abc.<standard-base64 JSON with sub>.sig` extracts the
`sub` value (a base64url payload containing `-` or `_` instead counts as
malformed); a token with no dot, a payload that fails standard-base64
decoding, an undecodable JSON payload, or a missing `sub` all yield the
empty string; and the token exchange still succeeds whatever the token
looks like, assigning whatever extraction produced. -/
theorem c5_extraction_std_base64_best_effort :
    (∀ s : List Nat, (∀ b ∈ s, 32 ≤ b ∧ b < 256 ∧ b ≠ 34 ∧ b ≠ 92) →
        extractQwenAccountID (jwtTokenStd s) = s.map Char.ofNat) ∧
    (∀ t : List Char, ('.' : Char) ∉ t → extractQwenAccountID t = []) ∧
    (∀ t : List Char, 2 ≤ (goSplit '.' t).length →
        b64DecStd (padB64 ((goSplit '.' t).getD 1 [])) = none →
        extractQwenAccountID t = []) ∧
    (∀ (t : List Char) (bs : List Nat), 2 ≤ (goSplit '.' t).length →
        b64DecStd (padB64 ((goSplit '.' t).getD 1 [])) = some bs →
        parseJsonBytes bs = none →
        extractQwenAccountID t = []) ∧
    (∀ (t : List Char) (fs : List (List Char × Json)),
        jwtClaims t = some fs → lookupLast fs subKey = none →
        extractQwenAccountID t = []) ∧
    (∀ (code cv st : List Char) (now : Int) (j : Json) (tr : QwenTokenResponse),
        unmarshalQwenTokenResponse j = .ok tr → tr.accessToken ≠ [] →
        ∃ c, exchangeQwenCodeForToken code cv st (.response 200 (some j)) now = .ok c ∧
          c.accountID = extractQwenAccountID tr.accessToken) := by
  refine ⟨extract_jwtTokenStd, ?_, ?_, ?_, ?_, ?_⟩
  · intro t h
    apply extract_of_no_claims
    simp only [jwtClaims, goSplit_of_not_mem t h]
    rw [if_pos (by simp)]
  · intro t h2 hdec
    apply extract_of_no_claims
    simp only [jwtClaims]
    rw [if_neg (by omega), hdec]
  · intro t bs h2 hdec hparse
    apply extract_of_no_claims
    simp only [jwtClaims]
    rw [if_neg (by omega), hdec]
    simp only []
    rw [hparse]
  · intro t fs hc hl
    rw [extract_of_claims hc, hl]
  · intro code cv st now j tr hj htr
    simp only [exchangeQwenCodeForToken, hj]
    rw [if_neg (by norm_num)]
    rw [if_neg htr]
    refine ⟨_, rfl, ?_⟩
    by_cases hacc : extractQwenAccountID tr.accessToken ≠ []
    · rw [if_pos hacc]
    · rw [if_neg hacc]
      exact (not_not.mp hacc).symm

/-- Witness for C5's amended statement at concrete tokens: a well-formed
standard-base64 token extracts its `sub`, each malformed shape yields the
empty string, and a concrete exchange succeeds carrying the extraction
result. -/
theorem c5_witness :
    extractQwenAccountID (jwtTokenStd [97]) = ['a'] ∧
      extractQwenAccountID "noDotsHere".toList = [] ∧
      extractQwenAccountID "a.!!!!.c".toList = [] ∧
      extractQwenAccountID "a.YWI.c".toList = [] ∧
      extractQwenAccountID "a.e30.c".toList = [] ∧
      ∃ c, exchangeQwenCodeForToken [] [] [] (.response 200 (some tokJson)) 0 = .ok c ∧
        c.accountID = extractQwenAccountID "tok".toList :=
  ⟨c5_extraction_std_base64_best_effort.1 [97] (by decide),
   c5_extraction_std_base64_best_effort.2.1 _ (by decide),
   c5_extraction_std_base64_best_effort.2.2.1 _ (by decide) (by decide),
   c5_extraction_std_base64_best_effort.2.2.2.1 _ [97, 98] (by decide) (by decide) rfl,
   c5_extraction_std_base64_best_effort.2.2.2.2.1 _ [] rfl rfl,
   c5_extraction_std_base64_best_effort.2.2.2.2.2 [] [] [] 0 tokJson
     ⟨"tok".toList, "r".toList, 3600, []⟩ rfl (by decide)⟩

/-! ## Remaining witnesses -/

/-- Witness for C4: a 200 response with an empty `access_token` is
rejected, and a concrete successful exchange has a non-empty token. -/
theorem c4_witness :
    exchangeQwenCodeForToken "AC".toList [] [] (.response 200 (some emptyTokJson)) 0 =
        .error "未获取到访问令牌" ∧
      (⟨"tok".toList, "r".toList, some (1000 + 3600), "qwen".toList, "oauth".toList, []⟩ :
          AuthCredential).accessToken ≠ [] :=
  ⟨c4_empty_access_token_rejected.1 "AC".toList [] [] 0 emptyTokJson ⟨[], [], 0, []⟩ rfl rfl,
   c4_empty_access_token_rejected.2 "AC".toList [] [] (.response 200 (some tokJson)) 1000 _ rfl⟩

/-- Witness for C6's amended statement at concrete responses. -/
theorem c6_witness :
    getQwenQRCode (.response 200 none) = .error "解析二维码响应失败" ∧
      getQwenQRCode (.response 404 (some (Json.num 5))) = .error "解析二维码响应失败" ∧
      getQwenQRCode (.response 200 (some qrOkJson)) =
        .ok ⟨[], [], ⟨"u".toList, "i".toList, [], []⟩⟩ :=
  ⟨c6_protocol_error_only_on_parse_failure.1 200,
   c6_protocol_error_only_on_parse_failure.2.1 404 (.num 5)
     "json: cannot unmarshal value into Go value of type QwenQRCodeResponse" rfl,
   c6_protocol_error_only_on_parse_failure.2.2 200 qrOkJson _ rfl⟩

/-- Witness for C7: a server-reported `expires_in` of 3600 at `now = 1000`
yields an expiry of 4600. -/
theorem c7_witness :
    (⟨"tok".toList, "r".toList, some (1000 + 3600), "qwen".toList, "oauth".toList, []⟩ :
        AuthCredential).expiresAt = some ((1000 : Int) + 3600) :=
  (c7_expiry_set_iff_positive "AC".toList [] [] 1000 tokJson ⟨"tok".toList, "r".toList, 3600, []⟩
      _ rfl rfl).1 (by norm_num)

/-- Witness for C8: the unrecognized status `QR_CODE_SCANNED` produces
`(nil, nil)`. -/
theorem c8_witness :
    checkQwenScanStatus (.response 200 (some scannedStatusJson)) (.response 200 none) [] [] 0 =
      .ok none :=
  c8_nonterminal_status_continues.1 200 scannedStatusJson
    ⟨[], [], ⟨"QR_CODE_SCANNED".toList, []⟩⟩ (.response 200 none) [] [] 0 rfl
    (by decide) (by decide) (by decide)

/-- Witness for C10 at concrete tokens: a string `sub` is extracted, a
numeric `sub` yields the empty result. -/
theorem c10_witness :
    (∃ fs s, jwtClaims tokenSubAbc = some fs ∧
        lookupLast fs subKey = some (.str s) ∧ extractQwenAccountID tokenSubAbc = s) ∧
      extractQwenAccountID tokenSubNum = [] :=
  ⟨c10_nonempty_only_from_string_sub.1 tokenSubAbc (by decide),
   c10_nonempty_only_from_string_sub.2 tokenSubNum [(subKey, .num 5)] (.num 5) rfl rfl rfl⟩

end PicoClaw
